import Mathlib

/-!
Verification development for the Prep-Tesla-ASMA technician assistant.

The development shallowly embeds the checkpointed procedure executor
(`scripts/assistant.py`, class `StepManager`), the input-channel
abstraction (`scripts/utils.py`, class `UserInputHandler`) and the
spoken-choice parser (`scripts/text_to_speech.py`, `parse_choice` /
`get_number_words`) as executable Lean functions, and proves the
documented behavioural properties about them.

Python strings are modelled as Lean `String` (with `List Char` used for
the character-level scanning the parser performs); the filesystem-backed
save directory is modelled as an association list from file key
(procedure id) to checkpoint record, with `open(..., "w")` as an
overwriting write and `unlink` as removal; the interactive input stream
is modelled as a finite script of the strings the input handler returns,
with a run that exhausts its script reported as `blocked` (the real
program would just keep waiting for the user at that point).
-/

namespace TeslaAsma

/-! ## String helpers (substring containment, as Python's `in` operator) -/

/-- Does the character list `hay` start with `needle`? -/
def startsWithL : List Char → List Char → Bool
  | [], _ => true
  | _ :: _, [] => false
  | a :: as, b :: bs => a == b && startsWithL as bs

/-- Is `needle` a contiguous substring of `hay`?  This is Python's
`needle in hay` on strings. -/
def containsSubL (needle : List Char) : List Char → Bool
  | [] => startsWithL needle []
  | c :: rest => startsWithL needle (c :: rest) || containsSubL needle rest

/-- Python `needle in hay` on `String`s. -/
def containsStr (needle hay : String) : Bool :=
  containsSubL needle.data hay.data

/-- Python `str.lower()` (ASCII; every input the program compares after
lowering is ASCII). -/
def lowerStr (s : String) : String := ⟨s.data.map Char.toLower⟩

/-- Python `str.strip()`: drop whitespace from both ends. -/
def trimStr (s : String) : String :=
  ⟨((s.data.dropWhile Char.isWhitespace).reverse.dropWhile
      Char.isWhitespace).reverse⟩

/-! ## Choice parser — `scripts/text_to_speech.py` -/

/-- Numeric value of a decimal digit character. -/
def digitVal (c : Char) : Nat := c.toNat - '0'.toNat

/-- Value of a digit run, most significant digit first (Python `int(...)`
on a digit string). -/
def digitsToNat (ds : List Char) : Nat :=
  ds.foldl (fun a c => 10 * a + digitVal c) 0

/-- A word character in the sense of the regex `\b` boundary:
alphanumeric or underscore (the inputs of interest are ASCII). -/
def isWordChar (c : Char) : Bool := c.isAlphanum || c == '_'

/-- Leftmost match of the regex `\b(\d+)\b`: the first maximal run of
decimal digits whose left neighbour (if any) and right neighbour (if
any) are not word characters.  `prevW` records whether the previously
scanned character was a word character; `acc` holds the digits of the
run currently being scanned, in reverse, and is non-empty only when that
run started at a valid left boundary. -/
def findDigitsTok : Bool → List Char → List Char → Option Nat
  | _, acc, [] => if acc.isEmpty then none else some (digitsToNat acc.reverse)
  | prevW, acc, c :: rest =>
    if c.isDigit then
      if !acc.isEmpty then findDigitsTok true (c :: acc) rest
      else if !prevW then findDigitsTok true [c] rest
      else findDigitsTok true [] rest
    else
      if !acc.isEmpty && !(isWordChar c) then some (digitsToNat acc.reverse)
      else findDigitsTok (isWordChar c) [] rest

/-- The word→value dictionary of `get_number_words()`, in its insertion
(ascending) order, which is also its iteration order. -/
def get_number_words : List (String × Nat) :=
  [("zero", 0), ("one", 1), ("two", 2), ("three", 3), ("four", 4),
   ("five", 5), ("six", 6), ("seven", 7), ("eight", 8), ("nine", 9),
   ("ten", 10), ("eleven", 11), ("twelve", 12), ("thirteen", 13),
   ("fourteen", 14), ("fifteen", 15), ("sixteen", 16), ("seventeen", 17),
   ("eighteen", 18), ("nineteen", 19), ("twenty", 20)]

/-- `for word, value in get_number_words().items(): if word in text:
return value` — first vocabulary word (in list order) contained in the
text wins. -/
def scanNumberWords : List (String × Nat) → List Char → Option Nat
  | [], _ => none
  | (w, v) :: rest, t =>
    if containsSubL w.data t then some v else scanNumberWords rest t

/-- `parse_choice` from `scripts/text_to_speech.py`: empty text yields
no selection; otherwise lower-case the text, return the first
word-boundary-delimited digit run if there is one, else the first
matching number word, else no selection. -/
def parse_choice (s : String) : Option Nat :=
  if s.data.isEmpty then none
  else
    let t := s.data.map Char.toLower
    match findDigitsTok false [] t with
    | some n => some n
    | none => scanNumberWords get_number_words t

/-- Modelled from the spec's words for the digit phase of C8 ("search
for a sequence of decimal digits anywhere in the text"): the first
maximal digit run, with no word-boundary requirement. -/
def findDigitsAnywhere : List Char → List Char → Option Nat
  | acc, [] => if acc.isEmpty then none else some (digitsToNat acc.reverse)
  | acc, c :: rest =>
    if c.isDigit then findDigitsAnywhere (c :: acc) rest
    else if acc.isEmpty then findDigitsAnywhere [] rest
    else some (digitsToNat acc.reverse)

/-- Modelled from the spec's words (C8): `parse_choice` as the claim
describes it, with the digit search accepting digits anywhere in the
text rather than only standalone digit runs. -/
def parse_choice_claimed (s : String) : Option Nat :=
  if s.data.isEmpty then none
  else
    let t := s.data.map Char.toLower
    match findDigitsAnywhere [] t with
    | some n => some n
    | none => scanNumberWords get_number_words t

/-! ## Data model — the procedure document consumed by the executor -/

/-- One step of a subprocedure (`steps[i]` in the procedure document).
Only the rendered content is carried; the executor never branches on it. -/
structure Step where
  instruction : String
  tips_notes : List String := []
  hyperlinks : List (String × String) := []
deriving DecidableEq

/-- One subprocedure (`procedure_sections[i]`). -/
structure Subprocedure where
  section_title : String
  steps : List Step
deriving DecidableEq

/-- The procedure document (`procedure` dict): identifier, title, the
`llm_metadata["prerequisites"]` list and the `procedure_sections` list. -/
structure Proc where
  id : String
  title : String
  prerequisites : List String
  sections : List Subprocedure
deriving DecidableEq

/-- The record `_save_state` writes to `<procedure_id>.json`. -/
structure Checkpoint where
  procedure_id : String
  procedure_title : String
  subprocedure_idx : Nat
  step_idx : Nat
deriving DecidableEq

/-! ## Checkpoint store — the save directory as an association list -/

/-- The save directory: one entry per file, keyed by procedure id. -/
abbrev Store := List (String × Checkpoint)

/-- Does a file for key `k` exist? (`Path.exists`). -/
def Store.hasKey (st : Store) (k : String) : Bool :=
  st.any (fun e => e.1 == k)

/-- `open(path, "w")` + `json.dump`: overwrite the record for `k` if one
exists, otherwise create it. -/
def Store.write (st : Store) (k : String) (v : Checkpoint) : Store :=
  if st.hasKey k then
    st.map (fun e => if e.1 == k then (k, v) else e)
  else st ++ [(k, v)]

/-- `Path.unlink`: remove the record for `k`. -/
def Store.erase (st : Store) (k : String) : Store :=
  st.filter (fun e => !(e.1 == k))

/-- Read the record for `k`, if present. -/
def Store.read : Store → String → Option Checkpoint
  | [], _ => none
  | e :: rest, k => if e.1 == k then some e.2 else Store.read rest k

/-- Number of records stored under key `k`. -/
def Store.countKey (st : Store) (k : String) : Nat :=
  (st.filter (fun e => e.1 == k)).length

/-! ## Procedure executor — `scripts/assistant.py`, class `StepManager` -/

/-- Observable events of a run, in order: renderings, confirmation
prompts, rejections of non-yes answers, checkpoint writes and the final
cleanup.  `stepShown i j` records that step `j` (0-based) of
subprocedure `i` was rendered. -/
inductive Event where
  | header
  | prereqsShown
  | subHeader (idx : Nat)
  | stepShown (subIdx stepIdx : Nat)
  | prompted (prompt : String)
  | rejected
  | saved (subIdx stepIdx : Nat)
  | footer
  | saveCleared
deriving DecidableEq

/-- Mutable state of a `StepManager` run: the resume indices
`current_subprocedure_idx` / `current_step_idx`, the save directory, the
script of strings still to be returned by the input handler, and the
event trace so far. -/
structure SMState where
  cur_sub : Nat
  cur_step : Nat
  store : Store
  inputs : List String
  trace : List Event
deriving DecidableEq

/-- Result of (part of) a run: `done` on normal return, `blocked` when
the finite input script ran out while the program was waiting for the
user (the state records everything up to that point). -/
inductive ExecRes where
  | blocked (st : SMState)
  | done (st : SMState)
deriving DecidableEq

/-- The state carried by either outcome. -/
def stateOf : ExecRes → SMState
  | .blocked st => st
  | .done st => st

/-- Sequencing of executor phases: a blocked phase aborts the run (the
real program is still waiting on the user there), a finished phase
passes its state on. -/
def ExecRes.andThen (r : ExecRes) (f : SMState → ExecRes) : ExecRes :=
  match r with
  | .blocked b => .blocked b
  | .done st => f st

/-- `_save_state`: write the checkpoint for the procedure under its id,
with the current indices. -/
def save_state (p : Proc) (st : SMState) : SMState :=
  { st with
    store := st.store.write p.id
      ⟨p.id, p.title, st.cur_sub, st.cur_step⟩,
    trace := st.trace ++ [.saved st.cur_sub st.cur_step] }

/-- The acceptance test of `_require_yes`:
`answer = input.strip().lower(); "yes" in answer or answer == "y"`. -/
def isYesAnswer (a : String) : Bool :=
  containsStr "yes" (lowerStr (trimStr a)) || lowerStr (trimStr a) == "y"

/-- The loop body of `_require_yes`, structurally recursive over the
input script (`l` is the current `st.inputs`).  Each attempt prompts;
an accepted answer saves state and returns, any other answer prints the
rejection and retries. -/
def requireYesGo (p : Proc) (prompt : String) : List String → SMState → ExecRes
  | [], st => .blocked st
  | a :: rest, st =>
    if isYesAnswer a then
      .done (save_state p
        { st with inputs := rest, trace := st.trace ++ [.prompted prompt] })
    else
      requireYesGo p prompt rest
        { st with inputs := rest,
                  trace := st.trace ++ [.prompted prompt, .rejected] }

/-- `_require_yes`. -/
def require_yes (p : Proc) (prompt : String) (st : SMState) : ExecRes :=
  requireYesGo p prompt st.inputs st

/-- `_run_single_step`: render the step, then require confirmation
tagged with the 1-based step number. -/
def run_single_step (p : Proc) (step_number : Nat) (st : SMState) : ExecRes :=
  require_yes p ("Finished step " ++ toString step_number)
    { st with trace := st.trace ++ [.stepShown st.cur_sub st.cur_step] }

/-- The `for step_idx in range(start_step, len(steps))` loop of
`_run_single_subprocedure`: `l` is `steps[idx:]`. -/
def runStepsGo (p : Proc) : List Step → Nat → SMState → ExecRes
  | [], _, st => .done st
  | _ :: rest, idx, st =>
    (run_single_step p (idx + 1) { st with cur_step := idx }).andThen
      (fun st' => runStepsGo p rest (idx + 1) st')

/-- The resume-skip rule of `_run_single_subprocedure` applied to a
stored step index (`if start_step > 0: start_step += 1`): a positive
last-confirmed index resumes one past it, index 0 restarts at 0. -/
def startFromIdx (k : Nat) : Nat := if k > 0 then k + 1 else k

/-- `_run_single_subprocedure`: compute the starting step from the
resume indices (the stored index is the last confirmed step, so resume
skips one further when it is positive), run the remaining steps, reset
the step index and require the subprocedure-completion confirmation. -/
def run_single_subprocedure (p : Proc) (sec : Subprocedure) (section_idx : Nat)
    (st : SMState) : ExecRes :=
  let st := { st with trace := st.trace ++ [.subHeader section_idx] }
  let start0 := if section_idx == st.cur_sub then st.cur_step else 0
  let start_step := startFromIdx start0
  (runStepsGo p (sec.steps.drop start_step) start_step st).andThen
    (fun st' =>
      require_yes p
        ("Subprocedure '" ++ sec.section_title ++
         "' completed. Confirm before moving to the next subprocedure")
        { st' with cur_step := 0 })

/-- The `for s_idx in range(self.current_subprocedure_idx,
len(self.sections))` loop of `_run_subprocedures`: `l` is
`sections[idx:]`; each iteration sets `current_subprocedure_idx`. -/
def runSubsGo (p : Proc) : List Subprocedure → Nat → SMState → ExecRes
  | [], _, st => .done st
  | sec :: rest, idx, st =>
    (run_single_subprocedure p sec idx { st with cur_sub := idx }).andThen
      (fun st' => runSubsGo p rest (idx + 1) st')

/-- `_run_subprocedures`. -/
def run_subprocedures (p : Proc) (st : SMState) : ExecRes :=
  runSubsGo p (p.sections.drop st.cur_sub) st.cur_sub st

/-- `_run_prerequisites`: skip silently when the list is empty,
otherwise render it and require one confirmation. -/
def run_prerequisites (p : Proc) (st : SMState) : ExecRes :=
  if p.prerequisites.isEmpty then .done st
  else
    require_yes p "Have all prerequisites been reviewed and satisfied"
      { st with trace := st.trace ++ [.prereqsShown] }

/-- `StepManager.run`: header, prerequisites, subprocedures, footer,
then clear the save file if it exists. -/
def run (p : Proc) (st : SMState) : ExecRes :=
  let st := { st with trace := st.trace ++ [.header] }
  (run_prerequisites p st).andThen (fun st1 =>
    (run_subprocedures p st1).andThen (fun st2 =>
      let st3 : SMState := { st2 with trace := st2.trace ++ [Event.footer] }
      if st3.store.hasKey p.id then
        .done { st3 with store := st3.store.erase p.id,
                         trace := st3.trace ++ [Event.saveCleared] }
      else .done st3))

/-- A `StepManager` constructed with resume position `(subIdx, stepIdx)`
(both default to 0 for a fresh run), an initial save directory, and the
script of strings the input handler will return. -/
def initState (subIdx stepIdx : Nat) (inputs : List String) (store : Store) :
    SMState :=
  { cur_sub := subIdx, cur_step := stepIdx, store := store,
    inputs := inputs, trace := [] }

/-- Projection of a trace to the rendered steps, as
(subprocedure index, step index) pairs in rendering order. -/
def shownSteps (tr : List Event) : List (Nat × Nat) :=
  tr.filterMap (fun e =>
    match e with
    | .stepShown i j => some (i, j)
    | _ => none)

/-- `List.range'`-like helper with its own defeq equations:
`rangeFrom s n = [s, s+1, ..., s+n-1]`. -/
def rangeFrom : Nat → Nat → List Nat
  | _, 0 => []
  | s, n + 1 => s :: rangeFrom (s + 1) n

/-! ## Input channel — `scripts/utils.py`, class `UserInputHandler` -/

/-- The channel's current mode. -/
inductive Mode where
  | text
  | voice
deriving DecidableEq

/-- Session state of a `UserInputHandler` call: the mode plus the finite
scripts of typed lines (`input("> ")`) and of transcripts returned by
`record_and_transcribe()` (an empty string is "no speech detected"). -/
structure ChanState where
  mode : Mode
  typed : List String
  voiced : List String
deriving DecidableEq

/-- Messages `get_input` prints, one constructor per `print` site. -/
inductive ChanMsg where
  | shown (p : String)
  | switchVoice
  | noSpeech
  | heard (t : String)
  | noSelection
  | outOfRange
deriving DecidableEq

/-- Body of `get_input`, with explicit fuel.  Every recursive
re-invocation of the Python method consumes exactly one scripted item
first, so fuel `typed.length + voiced.length + 1` is always enough and
the fuel-0 branch is unreachable from `get_input`. -/
def getInputGo : Nat → String → Bool → Option Nat → ChanState →
    Option (String × ChanState) × List ChanMsg
  | 0, _, _, _, _ => (none, [])
  | fuel + 1, prompt, ec, mc, st =>
    match st.mode with
    | .text =>
      match st.typed with
      | [] => (none, [ChanMsg.shown prompt])
      | u :: rest =>
        let user := trimStr u
        if user == "404" then
          let p := getInputGo fuel prompt ec mc
            { st with mode := Mode.voice, typed := rest }
          (p.1, ChanMsg.shown prompt :: ChanMsg.switchVoice :: p.2)
        else
          (some (user, { st with typed := rest }), [ChanMsg.shown prompt])
    | .voice =>
      match st.voiced with
      | [] => (none, [ChanMsg.shown prompt])
      | t :: rest =>
        if t == "" then
          let p := getInputGo fuel prompt ec mc
            { st with mode := Mode.text, voiced := rest }
          (p.1, ChanMsg.shown prompt :: ChanMsg.noSpeech :: p.2)
        else
          let echo := [ChanMsg.shown prompt, ChanMsg.heard t]
          if ec then
            match parse_choice t with
            | none =>
              let p := getInputGo fuel prompt ec mc { st with voiced := rest }
              (p.1, echo ++ ChanMsg.noSelection :: p.2)
            | some c =>
              match mc with
              | some m =>
                if 1 ≤ c ∧ c ≤ m then
                  (some (toString c, { st with voiced := rest }), echo)
                else
                  let p := getInputGo fuel prompt ec mc { st with voiced := rest }
                  (p.1, echo ++ ChanMsg.outOfRange :: p.2)
              | none =>
                (some (toString c, { st with voiced := rest }), echo)
          else
            (some (t, { st with voiced := rest }), echo)

/-- `UserInputHandler.get_input(prompt, expect_choice, max_choice)`:
returns the answer string and the updated channel state (or `none` when
the finite script runs out), together with everything printed. -/
def get_input (prompt : String) (ec : Bool) (mc : Option Nat)
    (st : ChanState) : Option (String × ChanState) × List ChanMsg :=
  getInputGo (st.typed.length + st.voiced.length + 1) prompt ec mc st

/-! ## Derived notions used by the statements -/

/-- The events a run of `_require_yes` emits for `n` rejected answers. -/
def rejectEvents (pr : String) : Nat → List Event
  | 0 => []
  | n + 1 => Event.prompted pr :: Event.rejected :: rejectEvents pr n

/-- Relation between a store and any store the executor can turn it into
before the completion cleanup: existing keys survive (the phases only
write, never delete) and per-key uniqueness is preserved. -/
def storeStepOK (a b : Store) : Prop :=
  (∀ k, a.hasKey k = true → b.hasKey k = true) ∧
  (∀ k, Store.countKey a k ≤ 1 → Store.countKey b k ≤ 1)

/-- Element lookup in the subprocedure list (`sections[i]`). -/
def secAt : List Subprocedure → Nat → Option Subprocedure
  | [], _ => none
  | sec :: _, 0 => some sec
  | _ :: rest, n + 1 => secAt rest n

/-- Number of steps of subprocedure `i` (0 when there is no such
subprocedure). -/
def stepsLen (p : Proc) (i : Nat) : Nat :=
  match secAt p.sections i with
  | some sec => sec.steps.length
  | none => 0

/-- The steps a completed run renders, by subprocedure, when the
subprocedure loop starts at index `idx` with stored step index `k`:
subprocedure `idx` from `startFromIdx k`, all later ones from 0. -/
def planFrom : List Subprocedure → Nat → Nat → List (Nat × Nat)
  | [], _, _ => []
  | sec :: rest, idx, k =>
    (rangeFrom (startFromIdx k) (sec.steps.length - startFromIdx k)).map
      (fun j => (idx, j)) ++ planFrom rest (idx + 1) 0

/-- The block of rendered steps contributed by an optional subprocedure
at index `t` entered with stored step index `kk`. -/
def pieceFor (osec : Option Subprocedure) (kk t : Nat) : List (Nat × Nat) :=
  match osec with
  | none => []
  | some sec =>
    (rangeFrom (startFromIdx kk) (sec.steps.length - startFromIdx kk)).map
      (fun j => (t, j))

/-! ## Sample procedures used to exercise the theorems -/

/-- A sample procedure: one prerequisite, a first subprocedure with
three steps and a second with two. -/
def sampleProc : Proc :=
  { id := "uds-100", title := "Underbody shield",
    prerequisites := ["Vehicle raised"],
    sections :=
      [⟨"Loosen", [⟨"step a", [], []⟩, ⟨"step b", [], []⟩, ⟨"step c", [], []⟩]⟩,
       ⟨"Remove", [⟨"step d", [], []⟩, ⟨"step e", [], []⟩]⟩] }

/-- The §8 scenario procedure: one prerequisite, two subprocedures of
two steps each. -/
def crashProc : Proc :=
  { id := "fl-32", title := "Front lip",
    prerequisites := ["Wear gloves"],
    sections :=
      [⟨"Sub one", [⟨"step 1", [], []⟩, ⟨"step 2", [], []⟩]⟩,
       ⟨"Sub two", [⟨"step 1", [], []⟩, ⟨"step 2", [], []⟩]⟩] }

/-- The save directory after running `crashProc` on the script
["yes", "yes"] — confirm the prerequisite, confirm subprocedure-1 /
step-1, then stop (the process dies before step-2 is confirmed). -/
def crashStore : Store :=
  (stateOf (run crashProc (initState 0 0 ["yes", "yes"] []))).store

/-- The save directory after the same run interrupted one confirmation
later, i.e. after subprocedure-1 / step-2 was also confirmed. -/
def crashStoreLater : Store :=
  (stateOf (run crashProc (initState 0 0 ["yes", "yes", "yes"] []))).store

/-! ## Helper lemmas about the confirmation loop -/

theorem shownSteps_append (a b : List Event) :
    shownSteps (a ++ b) = shownSteps a ++ shownSteps b := by
  simp [shownSteps, List.filterMap_append]

theorem shownSteps_rejectEvents (pr : String) (n : Nat) :
    shownSteps (rejectEvents pr n) = [] := by
  induction n with
  | zero => simp [rejectEvents, shownSteps]
  | succ n ih => simp [rejectEvents, shownSteps] at ih ⊢; exact ih

/-- Full characterization of a successful confirmation: the resume
indices are untouched, the store gets exactly one write of the current
indices, the script splits at the first acceptable answer (everything
before it was rejected), and the trace records one prompt per attempt
plus the save. -/
theorem requireYesGo_done_spec (p : Proc) (pr : String) :
    ∀ (l : List String) (st s' : SMState),
      requireYesGo p pr l st = ExecRes.done s' →
      s'.cur_sub = st.cur_sub ∧ s'.cur_step = st.cur_step ∧
      s'.store = st.store.write p.id ⟨p.id, p.title, st.cur_sub, st.cur_step⟩ ∧
      ∃ pre a post, l = pre ++ a :: post ∧
        (∀ b ∈ pre, isYesAnswer b = false) ∧ isYesAnswer a = true ∧
        s'.inputs = post ∧
        s'.trace = st.trace ++ rejectEvents pr pre.length ++
          [Event.prompted pr, Event.saved st.cur_sub st.cur_step] := by
  intro l
  induction l with
  | nil => intro st s' h; simp [requireYesGo] at h
  | cons a rest ih =>
    intro st s' h
    by_cases ha : isYesAnswer a
    · simp only [requireYesGo, ha, if_pos] at h
      cases h
      refine ⟨rfl, rfl, rfl, [], a, rest, rfl, by simp, ha, rfl, ?_⟩
      simp [save_state, rejectEvents]
    · simp only [requireYesGo, ha, if_neg, Bool.false_eq_true,
        not_false_eq_true] at h
      obtain ⟨h1, h2, h3, pre, b, post, hl, hpre, hb, hin, htr⟩ :=
        ih _ s' h
      simp only at h1 h2 h3 htr
      refine ⟨h1, h2, h3, a :: pre, b, post, by simp [hl], ?_, hb, hin, ?_⟩
      · intro x hx
        rcases List.mem_cons.mp hx with rfl | hx
        · simpa using ha
        · exact hpre x hx
      · simp only [htr, List.length_cons, rejectEvents]
        simp

/-- A blocked confirmation (script exhausted): every scripted answer was
rejected, and neither the store nor the resume indices nor the rendered
steps changed. -/
theorem requireYesGo_blocked_spec (p : Proc) (pr : String) :
    ∀ (l : List String) (st b : SMState),
      requireYesGo p pr l st = ExecRes.blocked b →
      b.store = st.store ∧ b.cur_sub = st.cur_sub ∧ b.cur_step = st.cur_step ∧
      (∀ x ∈ l, isYesAnswer x = false) ∧
      shownSteps b.trace = shownSteps st.trace := by
  intro l
  induction l with
  | nil =>
    intro st b h
    simp only [requireYesGo, ExecRes.blocked.injEq] at h
    subst h
    exact ⟨rfl, rfl, rfl, by simp, rfl⟩
  | cons a rest ih =>
    intro st b h
    by_cases ha : isYesAnswer a
    · simp [requireYesGo, ha] at h
    · simp only [requireYesGo, ha, Bool.false_eq_true, if_neg,
        not_false_eq_true] at h
      obtain ⟨h1, h2, h3, h4, h5⟩ := ih _ b h
      simp only at h1 h2 h3 h5
      refine ⟨h1, h2, h3, ?_, ?_⟩
      · intro x hx
        rcases List.mem_cons.mp hx with rfl | hx
        · simpa using ha
        · exact h4 x hx
      · rw [h5, shownSteps_append]
        simp [shownSteps]

/-! ## C3 — the confirmation gate -/

/-- C3: `requireYes` returns only when some scripted answer, stripped
and lower-cased, equals "y" or contains "yes"; every earlier answer is
rejected (with a rejection message and a fresh prompt), and if no answer
is acceptable it never returns.  The listed example inputs behave as
claimed. -/
theorem confirmation_gate :
    (∀ (p : Proc) (pr : String) (st s' : SMState),
        require_yes p pr st = ExecRes.done s' →
        ∃ pre a post, st.inputs = pre ++ a :: post ∧
          (∀ b ∈ pre, isYesAnswer b = false) ∧ isYesAnswer a = true ∧
          s'.inputs = post ∧
          s'.trace = st.trace ++ rejectEvents pr pre.length ++
            [Event.prompted pr, Event.saved st.cur_sub st.cur_step])
    ∧ (∀ (p : Proc) (pr : String) (st : SMState),
        (∀ x ∈ st.inputs, isYesAnswer x = false) →
        ∀ s', require_yes p pr st ≠ ExecRes.done s')
    ∧ isYesAnswer "no" = false ∧ isYesAnswer "yep" = false ∧
      isYesAnswer "" = false ∧ isYesAnswer "Yes please" = true ∧
      isYesAnswer "Y" = true := by
  refine ⟨?_, ?_, by decide, by decide, by decide, by decide, by decide⟩
  · intro p pr st s' h
    obtain ⟨-, -, -, pre, a, post, hl, hpre, ha, hin, htr⟩ :=
      requireYesGo_done_spec p pr st.inputs st s' h
    exact ⟨pre, a, post, hl, hpre, ha, hin, htr⟩
  · intro p pr st hall s' h
    obtain ⟨-, -, -, pre, a, post, hl, -, ha, -, -⟩ :=
      requireYesGo_done_spec p pr st.inputs st s' h
    have : isYesAnswer a = false := hall a (by simp [hl])
    simp [this] at ha

/-- Witness for C3: a concrete gate run whose script is rejected once
("no") and then accepted ("Yes please"). -/
theorem confirmation_gate_witness :
    ∃ pre a post,
      (initState 0 0 ["no", "Yes please"] []).inputs = pre ++ a :: post ∧
      (∀ b ∈ pre, isYesAnswer b = false) ∧ isYesAnswer a = true ∧
      (stateOf (require_yes sampleProc "go"
        (initState 0 0 ["no", "Yes please"] []))).inputs = post ∧
      (stateOf (require_yes sampleProc "go"
        (initState 0 0 ["no", "Yes please"] []))).trace =
        (initState 0 0 ["no", "Yes please"] []).trace ++
          rejectEvents "go" pre.length ++
          [Event.prompted "go",
           Event.saved (initState 0 0 ["no", "Yes please"] []).cur_sub
             (initState 0 0 ["no", "Yes please"] []).cur_step] :=
  confirmation_gate.1 sampleProc "go" (initState 0 0 ["no", "Yes please"] [])
    (stateOf (require_yes sampleProc "go"
      (initState 0 0 ["no", "Yes please"] []))) rfl

/-! ## C4 — checkpoint writes happen exactly on acceptance -/

/-- C4: inside a `requireYes` loop, the checkpoint with the current
(subprocedure, step) indices is written exactly when an answer is
accepted, before the call returns; a run in which every answer is
rejected leaves the store untouched. -/
theorem checkpoint_write_on_accept :
    (∀ (p : Proc) (pr : String) (st s' : SMState),
        require_yes p pr st = ExecRes.done s' →
        s'.store = st.store.write p.id
          ⟨p.id, p.title, st.cur_sub, st.cur_step⟩ ∧
        s'.cur_sub = st.cur_sub ∧ s'.cur_step = st.cur_step)
    ∧ (∀ (p : Proc) (pr : String) (st b : SMState),
        require_yes p pr st = ExecRes.blocked b → b.store = st.store) := by
  constructor
  · intro p pr st s' h
    obtain ⟨h1, h2, h3, -⟩ := requireYesGo_done_spec p pr st.inputs st s' h
    exact ⟨h3, h1, h2⟩
  · intro p pr st b h
    exact (requireYesGo_blocked_spec p pr st.inputs st b h).1

/-- Witness for C4: the same concrete gate run writes exactly the
checkpoint carrying the state's indices. -/
theorem checkpoint_write_on_accept_witness :
    (stateOf (require_yes sampleProc "go"
        (initState 2 1 ["no", "Yes please"] []))).store =
      (initState 2 1 ["no", "Yes please"] []).store.write sampleProc.id
        ⟨sampleProc.id, sampleProc.title,
         (initState 2 1 ["no", "Yes please"] []).cur_sub,
         (initState 2 1 ["no", "Yes please"] []).cur_step⟩ ∧
    (stateOf (require_yes sampleProc "go"
        (initState 2 1 ["no", "Yes please"] []))).cur_sub =
      (initState 2 1 ["no", "Yes please"] []).cur_sub ∧
    (stateOf (require_yes sampleProc "go"
        (initState 2 1 ["no", "Yes please"] []))).cur_step =
      (initState 2 1 ["no", "Yes please"] []).cur_step :=
  checkpoint_write_on_accept.1 sampleProc "go"
    (initState 2 1 ["no", "Yes please"] [])
    (stateOf (require_yes sampleProc "go"
      (initState 2 1 ["no", "Yes please"] []))) rfl

/-! ## Helper lemmas about the checkpoint store -/

/-- The overwrite function used by `Store.write` preserves every
entry's key. -/
theorem overwriteFun_key (k : String) (v : Checkpoint)
    (e : String × Checkpoint) :
    ((if e.1 == k then (k, v) else e) : String × Checkpoint).1 = e.1 := by
  by_cases h : e.1 = k
  · simp [h]
  · simp [h]

/-- Mapping a key-preserving function over a store does not change how
many entries carry a given key. -/
theorem countKey_map_key_preserving
    (f : String × Checkpoint → String × Checkpoint)
    (hf : ∀ e, (f e).1 = e.1) (k0 : String) :
    ∀ st : Store, Store.countKey (st.map f) k0 = Store.countKey st k0 := by
  intro st
  induction st with
  | nil => rfl
  | cons e rest ih =>
    simp only [List.map_cons, Store.countKey, List.filter_cons, hf e] at ih ⊢
    by_cases h0 : e.1 = k0
    · simp only [h0, beq_self_eq_true, if_pos, List.length_cons, ih]
    · have hb : (e.1 == k0) = false := by simp [h0]
      simp only [hb, Bool.false_eq_true, if_neg, not_false_eq_true, ih]

theorem countKey_map_overwrite (st : Store) (k : String) (v : Checkpoint)
    (k0 : String) :
    Store.countKey (st.map (fun e => if e.1 == k then (k, v) else e)) k0 =
      Store.countKey st k0 :=
  countKey_map_key_preserving _ (overwriteFun_key k v) k0 st

theorem countKey_append_single (st : Store) (k : String) (v : Checkpoint)
    (k0 : String) :
    Store.countKey (st ++ [(k, v)]) k0 =
      Store.countKey st k0 + (if k = k0 then 1 else 0) := by
  simp only [Store.countKey, List.filter_append, List.length_append]
  by_cases h : k = k0 <;> simp [h, List.filter_cons]

theorem countKey_zero_of_not_hasKey (st : Store) (k : String)
    (h : st.hasKey k = false) : Store.countKey st k = 0 := by
  induction st with
  | nil => rfl
  | cons e rest ih =>
    simp only [Store.hasKey, List.any_cons, Bool.or_eq_false_iff] at h
    simp only [Store.countKey, List.filter_cons, h.1, Bool.false_eq_true,
      if_neg, not_false_eq_true]
    exact ih h.2

theorem countKey_write_le_one (st : Store) (k : String) (v : Checkpoint)
    (k0 : String) (h : Store.countKey st k0 ≤ 1) :
    Store.countKey (st.write k v) k0 ≤ 1 := by
  unfold Store.write
  by_cases hk : st.hasKey k
  · rw [if_pos hk, countKey_map_overwrite]; exact h
  · rw [if_neg hk, countKey_append_single]
    by_cases h0 : k = k0
    · subst h0
      rw [countKey_zero_of_not_hasKey st k (by simpa using hk)]
      simp
    · simpa [h0] using h

theorem countKey_erase_le (st : Store) (k k0 : String) :
    Store.countKey (st.erase k) k0 ≤ Store.countKey st k0 := by
  induction st with
  | nil => exact Nat.le_refl 0
  | cons e rest ih =>
    simp only [Store.erase, Store.countKey, List.filter_cons] at ih ⊢
    by_cases h : e.1 = k
    · have hb : (!(e.1 == k)) = false := by simp [h]
      rw [hb]
      simp only [Bool.false_eq_true, if_neg, not_false_eq_true]
      by_cases h0 : e.1 = k0
      · simp only [h0, beq_self_eq_true, if_pos, List.length_cons]
        exact Nat.le_succ_of_le ih
      · have hb0 : (e.1 == k0) = false := by simp [h0]
        simp only [hb0, Bool.false_eq_true, if_neg, not_false_eq_true]
        exact ih
    · have hb : (!(e.1 == k)) = true := by simp [h]
      rw [hb]
      simp only [if_pos, List.filter_cons]
      by_cases h0 : e.1 = k0
      · simp only [h0, beq_self_eq_true, if_pos, List.length_cons]
        exact Nat.succ_le_succ ih
      · have hb0 : (e.1 == k0) = false := by simp [h0]
        simp only [hb0, Bool.false_eq_true, if_neg, not_false_eq_true]
        exact ih

theorem hasKey_map_overwrite (st : Store) (k : String) (v : Checkpoint)
    (k0 : String) :
    Store.hasKey (st.map (fun e => if e.1 == k then (k, v) else e)) k0 =
      st.hasKey k0 := by
  induction st with
  | nil => rfl
  | cons e rest ih =>
    simp only [List.map_cons, Store.hasKey, List.any_cons,
      overwriteFun_key k v e] at ih ⊢
    rw [ih]

theorem hasKey_write_mono (st : Store) (k : String) (v : Checkpoint)
    (k0 : String) (h : st.hasKey k0 = true) :
    Store.hasKey (st.write k v) k0 = true := by
  unfold Store.write
  by_cases hk : st.hasKey k
  · rw [if_pos hk, hasKey_map_overwrite]; exact h
  · rw [if_neg hk]
    simp only [Store.hasKey, List.any_append] at h ⊢
    simp [h]

theorem hasKey_erase_self (st : Store) (k : String) :
    Store.hasKey (st.erase k) k = false := by
  induction st with
  | nil => rfl
  | cons e rest ih =>
    simp only [Store.erase, List.filter_cons, Store.hasKey] at ih ⊢
    by_cases h : e.1 = k <;> simp [h, ih]

theorem read_write_self (st : Store) (k : String) (v : Checkpoint) :
    Store.read (st.write k v) k = some v := by
  unfold Store.write
  by_cases hk : st.hasKey k
  · rw [if_pos hk]
    induction st with
    | nil => simp [Store.hasKey] at hk
    | cons e rest ih =>
      by_cases h : e.1 = k
      · simp [Store.read, h]
      · have hb : (e.1 == k) = false := by simp [h]
        simp only [Store.hasKey, List.any_cons, hb, Bool.false_or] at hk
        simp only [List.map_cons, hb, Bool.false_eq_true, if_neg,
          not_false_eq_true, Store.read]
        exact ih hk
  · rw [if_neg hk]
    induction st with
    | nil => simp [Store.read]
    | cons e rest ih =>
      simp only [Store.hasKey, List.any_cons, Bool.or_eq_true,
        not_or] at hk
      have hb : (e.1 == k) = false := by
        cases hke : e.1 == k
        · rfl
        · exact absurd hke hk.1
      simp only [List.cons_append, Store.read, hb, Bool.false_eq_true,
        if_neg, not_false_eq_true]
      exact ih (by simpa [Store.hasKey] using hk.2)

/-! ## Store evolution through the executor's phases -/

theorem storeStepOK_refl (a : Store) : storeStepOK a a :=
  ⟨fun _ h => h, fun _ h => h⟩

theorem storeStepOK_trans {a b c : Store} (h1 : storeStepOK a b)
    (h2 : storeStepOK b c) : storeStepOK a c :=
  ⟨fun k h => h2.1 k (h1.1 k h), fun k h => h2.2 k (h1.2 k h)⟩

theorem storeStepOK_write (a : Store) (k : String) (v : Checkpoint) :
    storeStepOK a (a.write k v) :=
  ⟨fun k0 h => hasKey_write_mono a k v k0 h,
   fun k0 h => countKey_write_le_one a k v k0 h⟩

theorem requireYesGo_storeStepOK (p : Proc) (pr : String) (l : List String)
    (st : SMState) :
    storeStepOK st.store (stateOf (requireYesGo p pr l st)).store := by
  cases hr : requireYesGo p pr l st with
  | blocked b =>
    simp only [stateOf]
    rw [(requireYesGo_blocked_spec p pr l st b hr).1]
    exact storeStepOK_refl _
  | done s' =>
    obtain ⟨-, -, h3, -⟩ := requireYesGo_done_spec p pr l st s' hr
    simp only [stateOf]
    rw [h3]
    exact storeStepOK_write _ _ _

theorem require_yes_storeStepOK (p : Proc) (pr : String) (st : SMState) :
    storeStepOK st.store (stateOf (require_yes p pr st)).store :=
  requireYesGo_storeStepOK p pr st.inputs st

theorem run_single_step_storeStepOK (p : Proc) (n : Nat) (st : SMState) :
    storeStepOK st.store (stateOf (run_single_step p n st)).store :=
  require_yes_storeStepOK p ("Finished step " ++ toString n)
    { st with trace := st.trace ++ [Event.stepShown st.cur_sub st.cur_step] }

theorem runStepsGo_storeStepOK (p : Proc) :
    ∀ (l : List Step) (idx : Nat) (st : SMState),
      storeStepOK st.store (stateOf (runStepsGo p l idx st)).store := by
  intro l
  induction l with
  | nil => intro idx st; exact storeStepOK_refl _
  | cons s rest ih =>
    intro idx st
    simp only [runStepsGo]
    cases hr : run_single_step p (idx + 1) { st with cur_step := idx } with
    | blocked b =>
      have h1 := run_single_step_storeStepOK p (idx + 1)
        { st with cur_step := idx }
      rw [hr] at h1
      exact h1
    | done s' =>
      have h1 := run_single_step_storeStepOK p (idx + 1)
        { st with cur_step := idx }
      rw [hr] at h1
      exact storeStepOK_trans h1 (ih (idx + 1) s')

theorem storeStepOK_andThen {a : Store} {r : ExecRes} {f : SMState → ExecRes}
    (h1 : storeStepOK a (stateOf r).store)
    (h2 : ∀ s, storeStepOK s.store (stateOf (f s)).store) :
    storeStepOK a (stateOf (r.andThen f)).store := by
  cases r with
  | blocked b => exact h1
  | done s => exact storeStepOK_trans h1 (h2 s)

theorem andThen_eq_done {r : ExecRes} {f : SMState → ExecRes} {s' : SMState}
    (h : r.andThen f = ExecRes.done s') :
    ∃ s, r = ExecRes.done s ∧ f s = ExecRes.done s' := by
  cases r with
  | blocked b => simp [ExecRes.andThen] at h
  | done s => exact ⟨s, rfl, h⟩

theorem run_single_subprocedure_storeStepOK (p : Proc) (sec : Subprocedure)
    (i : Nat) (st : SMState) :
    storeStepOK st.store (stateOf (run_single_subprocedure p sec i st)).store := by
  unfold run_single_subprocedure
  exact storeStepOK_andThen
    (runStepsGo_storeStepOK p _ _
      { st with trace := st.trace ++ [Event.subHeader i] })
    (fun s => require_yes_storeStepOK p _ { s with cur_step := 0 })

theorem runSubsGo_storeStepOK (p : Proc) :
    ∀ (l : List Subprocedure) (idx : Nat) (st : SMState),
      storeStepOK st.store (stateOf (runSubsGo p l idx st)).store := by
  intro l
  induction l with
  | nil => intro idx st; exact storeStepOK_refl _
  | cons sec rest ih =>
    intro idx st
    simp only [runSubsGo]
    exact storeStepOK_andThen
      (run_single_subprocedure_storeStepOK p sec idx { st with cur_sub := idx })
      (fun s => ih (idx + 1) s)

theorem run_subprocedures_storeStepOK (p : Proc) (st : SMState) :
    storeStepOK st.store (stateOf (run_subprocedures p st)).store :=
  runSubsGo_storeStepOK p _ _ st

theorem run_prerequisites_storeStepOK (p : Proc) (st : SMState) :
    storeStepOK st.store (stateOf (run_prerequisites p st)).store := by
  unfold run_prerequisites
  by_cases h : p.prerequisites.isEmpty
  · rw [if_pos h]; exact storeStepOK_refl _
  · rw [if_neg h]
    exact require_yes_storeStepOK p _
      { st with trace := st.trace ++ [Event.prereqsShown] }

theorem run_countKey_le_one (p : Proc) (st : SMState) (k0 : String)
    (h : Store.countKey st.store k0 ≤ 1) :
    Store.countKey (stateOf (run p st)).store k0 ≤ 1 := by
  unfold run
  cases hr1 : run_prerequisites p
      { st with trace := st.trace ++ [Event.header] } with
  | blocked b =>
    have h1 := (run_prerequisites_storeStepOK p
      { st with trace := st.trace ++ [Event.header] }).2 k0 h
    rw [hr1] at h1
    simp only [hr1, ExecRes.andThen]
    exact h1
  | done s1 =>
    have h1 := (run_prerequisites_storeStepOK p
      { st with trace := st.trace ++ [Event.header] }).2 k0 h
    rw [hr1] at h1
    simp only [hr1, ExecRes.andThen]
    cases hr2 : run_subprocedures p s1 with
    | blocked b =>
      have h2 := (run_subprocedures_storeStepOK p s1).2 k0 h1
      rw [hr2] at h2
      simp only [hr2, ExecRes.andThen]
      exact h2
    | done s2 =>
      have h2 := (run_subprocedures_storeStepOK p s1).2 k0 h1
      rw [hr2] at h2
      simp only [hr2, ExecRes.andThen]
      split
      · exact Nat.le_trans (countKey_erase_le _ _ _) h2
      · exact h2

/-! ## C5 — checkpoint singularity -/

/-- C5: a save overwrites the single record slot for the procedure id
(reading the key back returns the freshly written record), never creates
a second record for a key that is unique, and consequently a full
executor run preserves "at most one record per procedure id" in the
store. -/
theorem checkpoint_singularity :
    (∀ (st : Store) (k : String) (v : Checkpoint),
        Store.read (st.write k v) k = some v)
    ∧ (∀ (st : Store) (k : String) (v : Checkpoint) (k0 : String),
        Store.countKey st k0 ≤ 1 → Store.countKey (st.write k v) k0 ≤ 1)
    ∧ (∀ (p : Proc) (st : SMState) (k0 : String),
        Store.countKey st.store k0 ≤ 1 →
        Store.countKey (stateOf (run p st)).store k0 ≤ 1) :=
  ⟨read_write_self,
   fun st k v k0 h => countKey_write_le_one st k v k0 h,
   run_countKey_le_one⟩

/-- Witness for C5: a full run of the sample procedure from an empty
store keeps at most one record for its id. -/
theorem checkpoint_singularity_witness :
    Store.countKey
      (stateOf (run sampleProc
        (initState 0 0 (List.replicate 9 "yes") []))).store "uds-100" ≤ 1 :=
  checkpoint_singularity.2.2 sampleProc
    (initState 0 0 (List.replicate 9 "yes") []) "uds-100" (by decide)

/-! ## C6 — completion clears the checkpoint -/

/-- C6: a run that completes leaves no checkpoint for the procedure id,
the deletion happens right after the footer is printed, and it is the
only deleting transition — the confirmation gate, the prerequisites
phase and the subprocedure loop never remove an existing record. -/
theorem completion_clears_state :
    (∀ (p : Proc) (st final : SMState), run p st = ExecRes.done final →
        final.store.hasKey p.id = false ∧
        ∃ pre, final.trace = pre ++ [Event.footer, Event.saveCleared] ∨
               final.trace = pre ++ [Event.footer])
    ∧ (∀ (p : Proc) (pr : String) (st : SMState) (k : String),
        st.store.hasKey k = true →
        (stateOf (require_yes p pr st)).store.hasKey k = true)
    ∧ (∀ (p : Proc) (st : SMState) (k : String),
        st.store.hasKey k = true →
        (stateOf (run_prerequisites p st)).store.hasKey k = true)
    ∧ (∀ (p : Proc) (st : SMState) (k : String),
        st.store.hasKey k = true →
        (stateOf (run_subprocedures p st)).store.hasKey k = true) := by
  refine ⟨?_, ?_, ?_, ?_⟩
  · intro p st final h
    unfold run at h
    obtain ⟨s1, h1, h⟩ := andThen_eq_done h
    obtain ⟨s2, h2, h⟩ := andThen_eq_done h
    by_cases hk :
        Store.hasKey ({ s2 with trace := s2.trace ++ [Event.footer] } : SMState).store p.id
    · rw [if_pos hk] at h
      cases h
      refine ⟨hasKey_erase_self _ _, s2.trace, Or.inl ?_⟩
      simp
    · rw [if_neg hk] at h
      cases h
      refine ⟨by simpa using hk, s2.trace, Or.inr rfl⟩
  · intro p pr st k hk
    exact (require_yes_storeStepOK p pr st).1 k hk
  · intro p st k hk
    exact (run_prerequisites_storeStepOK p st).1 k hk
  · intro p st k hk
    exact (run_subprocedures_storeStepOK p st).1 k hk

/-- Witness for C6: the completed sample run has no checkpoint left for
its procedure id, and its trace ends with the footer and the
save-cleared message. -/
theorem completion_clears_state_witness :
    (stateOf (run sampleProc
        (initState 0 0 (List.replicate 9 "yes") []))).store.hasKey
      sampleProc.id = false ∧
    ∃ pre,
      (stateOf (run sampleProc
          (initState 0 0 (List.replicate 9 "yes") []))).trace =
        pre ++ [Event.footer, Event.saveCleared] ∨
      (stateOf (run sampleProc
          (initState 0 0 (List.replicate 9 "yes") []))).trace =
        pre ++ [Event.footer] :=
  completion_clears_state.1 sampleProc
    (initState 0 0 (List.replicate 9 "yes") [])
    (stateOf (run sampleProc (initState 0 0 (List.replicate 9 "yes") []))) rfl

/-! ## C2 — the crash-resume scenario -/

/-- C2 counterexample: in the §8 scenario (1 prerequisite, 2×2 steps,
crash before subprocedure-1/step-2 is confirmed) the persisted
checkpoint is `(subprocedure_idx 0, step_idx 0)`, and the restarted
executor both re-asks the prerequisite confirmation and re-renders
subprocedure-1/step-1 (event `stepShown 0 0`) — contradicting the
claimed "resumes exactly at subprocedure-1/step-2, never re-asking the
prerequisite or re-confirming subprocedure-1/step-1". -/
theorem crash_resume_counterexample :
    Store.read crashStore "fl-32" = some ⟨"fl-32", "Front lip", 0, 0⟩ ∧
    Event.stepShown 0 0 ∈
      (stateOf (run crashProc
        (initState 0 0 (List.replicate 7 "yes") crashStore))).trace ∧
    Event.prompted "Have all prerequisites been reviewed and satisfied" ∈
      (stateOf (run crashProc
        (initState 0 0 (List.replicate 7 "yes") crashStore))).trace := by
  decide

/-- C2 amended: in the §8 scenario the persisted checkpoint is `(0, 0)`
(the step index of the last confirmed step, which the resume rule cannot
distinguish from "nothing confirmed"), so the restart re-asks the
prerequisite and re-runs subprocedure 1 from step 1; only a positive
stored step index is skipped past on resume — had the crash happened one
confirmation later (checkpoint `(0, 1)`), the restart would re-render no
step of subprocedure 1 and continue with subprocedure 2. -/
theorem crash_resume_amended :
    shownSteps (stateOf (run crashProc
        (initState 0 0 (List.replicate 7 "yes") crashStore))).trace =
      [(0, 0), (0, 1), (1, 0), (1, 1)] ∧
    Event.prompted "Have all prerequisites been reviewed and satisfied" ∈
      (stateOf (run crashProc
        (initState 0 0 (List.replicate 7 "yes") crashStore))).trace ∧
    Store.read crashStoreLater "fl-32" = some ⟨"fl-32", "Front lip", 0, 1⟩ ∧
    shownSteps (stateOf (run crashProc
        (initState 0 1 (List.replicate 6 "yes") crashStoreLater))).trace =
      [(1, 0), (1, 1)] := by
  decide

/-! ## C8 — the choice-parser algorithm -/

/-- C8 counterexample: the claim says a sequence of decimal digits
anywhere in the text is returned as an integer, but the digit search of
`parse_choice` uses word boundaries: on "option7" the spec-modelled
parser returns 7 while the code returns no selection. -/
theorem choice_parser_counterexample :
    parse_choice_claimed "option7" = some 7 ∧
    parse_choice "option7" = none := by decide

/-- C8 amended: `parse_choice` is case-insensitive; it first searches
for a word-boundary-delimited (standalone) sequence of decimal digits
and returns it as an integer if found; otherwise it scans the words
"zero" through "twenty" in ascending order and returns the value of the
first matching word; otherwise it reports no selection.  The four listed
examples behave as claimed. -/
theorem choice_parser_algorithm :
    parse_choice "please pick three" = some 3 ∧
    parse_choice "option 7 please" = some 7 ∧
    parse_choice "twenty" = some 20 ∧
    parse_choice "blah" = none ∧
    (∀ t u : String, t.data.map Char.toLower = u.data.map Char.toLower →
      parse_choice t = parse_choice u) ∧
    (∀ (s : String) (n : Nat), s.data.isEmpty = false →
      findDigitsTok false [] (s.data.map Char.toLower) = some n →
      parse_choice s = some n) ∧
    (∀ s : String, s.data.isEmpty = false →
      findDigitsTok false [] (s.data.map Char.toLower) = none →
      parse_choice s = scanNumberWords get_number_words
        (s.data.map Char.toLower)) := by
  refine ⟨by decide, by decide, by decide, by decide, ?_, ?_, ?_⟩
  · intro t u h
    have hlen : t.data.length = u.data.length := by
      have := congrArg List.length h
      simpa using this
    have he : t.data.isEmpty = u.data.isEmpty := by
      cases ht : t.data <;> cases hu : u.data <;> simp_all
    simp only [parse_choice, he, h]
  · intro s n he hd
    simp only [parse_choice, he, Bool.false_eq_true, if_neg,
      not_false_eq_true, hd]
  · intro s he hd
    simp only [parse_choice, he, Bool.false_eq_true, if_neg,
      not_false_eq_true, hd]

/-- Witness for C8: case-insensitivity and the digit-priority clause at
concrete inputs. -/
theorem choice_parser_algorithm_witness :
    parse_choice "THREE" = parse_choice "three" ∧
    parse_choice "grab 12 bolts" = some 12 :=
  ⟨choice_parser_algorithm.2.2.2.2.1 "THREE" "three" (by decide),
   choice_parser_algorithm.2.2.2.2.2.1 "grab 12 bolts" 12 (by decide)
     (by decide)⟩

/-! ## C10 — substring matching of number words -/

/-- C10: the vocabulary scan of `parse_choice` tests substring
containment, not whole-word equality, so for text without a standalone
digit run an earlier (smaller-valued) word hidden inside a longer word
wins: "sixteen" parses as 6 (via "six"), "fourteen" as 4 (via "four"),
and "none" as 1 (via "one"). -/
theorem substring_word_matching :
    parse_choice "sixteen" = some 6 ∧
    parse_choice "fourteen" = some 4 ∧
    parse_choice "none" = some 1 := by decide

/-! ## Helper lemmas about the input channel -/

theorem getInputGo_noSpeech (fuel : Nat) (pr : String) (ec : Bool)
    (mc : Option Nat) (ty rest : List String) :
    getInputGo (fuel + 1) pr ec mc ⟨Mode.voice, ty, "" :: rest⟩ =
      ((getInputGo fuel pr ec mc ⟨Mode.text, ty, rest⟩).1,
       ChanMsg.shown pr :: ChanMsg.noSpeech ::
         (getInputGo fuel pr ec mc ⟨Mode.text, ty, rest⟩).2) := by
  simp [getInputGo]

theorem getInputGo_echo (fuel : Nat) (pr : String) (ec : Bool)
    (mc : Option Nat) (ty rest : List String) (t : String)
    (ht : (t == "") = false) :
    ∃ ms, (getInputGo (fuel + 1) pr ec mc ⟨Mode.voice, ty, t :: rest⟩).2 =
      ChanMsg.shown pr :: ChanMsg.heard t :: ms := by
  simp only [getInputGo, ht, Bool.false_eq_true, if_neg, not_false_eq_true]
  cases ec
  · exact ⟨_, rfl⟩
  · simp only [if_pos]
    cases hp : parse_choice t with
    | none => exact ⟨_, rfl⟩
    | some c =>
      cases mc with
      | none => exact ⟨_, rfl⟩
      | some m =>
        dsimp only
        by_cases hr : 1 ≤ c ∧ c ≤ m
        · simp only [if_pos hr]
          exact ⟨_, rfl⟩
        · simp only [if_neg hr]
          exact ⟨_, rfl⟩

theorem getInputGo_choice_noparse (fuel : Nat) (pr : String)
    (mc : Option Nat) (ty rest : List String) (t : String)
    (ht : (t == "") = false) (hp : parse_choice t = none) :
    getInputGo (fuel + 1) pr true mc ⟨Mode.voice, ty, t :: rest⟩ =
      ((getInputGo fuel pr true mc ⟨Mode.voice, ty, rest⟩).1,
       ChanMsg.shown pr :: ChanMsg.heard t :: ChanMsg.noSelection ::
         (getInputGo fuel pr true mc ⟨Mode.voice, ty, rest⟩).2) := by
  simp [getInputGo, ht, hp]

theorem getInputGo_choice_outOfRange (fuel : Nat) (pr : String) (m : Nat)
    (ty rest : List String) (t : String) (c : Nat)
    (ht : (t == "") = false) (hp : parse_choice t = some c)
    (hr : ¬(1 ≤ c ∧ c ≤ m)) :
    getInputGo (fuel + 1) pr true (some m) ⟨Mode.voice, ty, t :: rest⟩ =
      ((getInputGo fuel pr true (some m) ⟨Mode.voice, ty, rest⟩).1,
       ChanMsg.shown pr :: ChanMsg.heard t :: ChanMsg.outOfRange ::
         (getInputGo fuel pr true (some m) ⟨Mode.voice, ty, rest⟩).2) := by
  simp [getInputGo, ht, hp, hr]

theorem getInputGo_choice_inRange (fuel : Nat) (pr : String) (m : Nat)
    (ty rest : List String) (t : String) (c : Nat)
    (ht : (t == "") = false) (hp : parse_choice t = some c)
    (hr : 1 ≤ c ∧ c ≤ m) :
    getInputGo (fuel + 1) pr true (some m) ⟨Mode.voice, ty, t :: rest⟩ =
      (some (toString c, ⟨Mode.voice, ty, rest⟩),
       [ChanMsg.shown pr, ChanMsg.heard t]) := by
  simp [getInputGo, ht, hp, hr]

theorem getInputGo_choice_noMax (fuel : Nat) (pr : String)
    (ty rest : List String) (t : String) (c : Nat)
    (ht : (t == "") = false) (hp : parse_choice t = some c) :
    getInputGo (fuel + 1) pr true none ⟨Mode.voice, ty, t :: rest⟩ =
      (some (toString c, ⟨Mode.voice, ty, rest⟩),
       [ChanMsg.shown pr, ChanMsg.heard t]) := by
  simp [getInputGo, ht, hp]

theorem getInputGo_text_plain (fuel : Nat) (pr : String) (ec : Bool)
    (mc : Option Nat) (ty v : List String) (u : String)
    (hu : (trimStr u == "404") = false) :
    getInputGo (fuel + 1) pr ec mc ⟨Mode.text, u :: ty, v⟩ =
      (some (trimStr u, ⟨Mode.text, ty, v⟩), [ChanMsg.shown pr]) := by
  simp [getInputGo, hu]

/-! ## C9 — voice fallback on empty transcription -/

/-- C9: an empty transcription in voice mode switches the channel to
text mode and retries the same request (the next internal request is
the same call issued on the text-mode state); a non-empty transcription
is echoed back (message `heard t`) right after the prompt, before being
used. -/
theorem voice_fallback :
    (∀ (pr : String) (ec : Bool) (mc : Option Nat) (ty rest : List String),
        get_input pr ec mc ⟨Mode.voice, ty, "" :: rest⟩ =
          ((get_input pr ec mc ⟨Mode.text, ty, rest⟩).1,
           ChanMsg.shown pr :: ChanMsg.noSpeech ::
             (get_input pr ec mc ⟨Mode.text, ty, rest⟩).2))
    ∧ (∀ (pr : String) (ec : Bool) (mc : Option Nat) (ty rest : List String)
          (t : String), t ≠ "" →
        ∃ ms, (get_input pr ec mc ⟨Mode.voice, ty, t :: rest⟩).2 =
          ChanMsg.shown pr :: ChanMsg.heard t :: ms) := by
  constructor
  · intro pr ec mc ty rest
    exact getInputGo_noSpeech (ty.length + rest.length + 1) pr ec mc ty rest
  · intro pr ec mc ty rest t ht
    exact getInputGo_echo (ty.length + rest.length + 1) pr ec mc ty rest t
      (beq_eq_false_iff_ne.mpr ht)

/-- Witness for C9: concrete voice request with a non-empty transcript
is echoed; (the fallback conjunct is hypothesis-free). -/
theorem voice_fallback_witness :
    ∃ ms, (get_input "Go" false none ⟨Mode.voice, [], ["okay done"]⟩).2 =
      ChanMsg.shown "Go" :: ChanMsg.heard "okay done" :: ms :=
  voice_fallback.2 "Go" false none [] [] "okay done" (by decide)

/-! ## C7 — the expect-choice contract -/

/-- C7 counterexample: with `expect_choice` set but the channel in text
mode, the unparsable input "blah" is returned verbatim to the caller —
no choice parsing, no rejection, no retry — because `get_input` only
consults the choice parser on its voice path. -/
theorem expect_choice_counterexample :
    get_input "Select option (number)" true (some 3)
        ⟨Mode.text, ["blah"], []⟩ =
      (some ("blah", ⟨Mode.text, [], []⟩),
       [ChanMsg.shown "Select option (number)"]) ∧
    parse_choice "blah" = none := by decide

/-- C7 amended: the expect-choice contract holds on the voice path:
an unparsable transcript is rejected with the no-selection message and
the whole request is retried (with a fresh prompt), a parsed value
outside [1, maxChoice] is rejected with the distinct out-of-range
message and retried, and a valid selection is returned rendered back as
a string.  In text mode the stripped typed line is returned as-is and
`expect_choice` is ignored. -/
theorem expect_choice_contract :
    (∀ (pr : String) (mc : Option Nat) (ty v : List String) (u : String),
        (trimStr u == "404") = false →
        get_input pr true mc ⟨Mode.text, u :: ty, v⟩ =
          (some (trimStr u, ⟨Mode.text, ty, v⟩), [ChanMsg.shown pr]))
    ∧ (∀ (pr : String) (mc : Option Nat) (ty rest : List String)
          (t : String), t ≠ "" → parse_choice t = none →
        get_input pr true mc ⟨Mode.voice, ty, t :: rest⟩ =
          ((get_input pr true mc ⟨Mode.voice, ty, rest⟩).1,
           ChanMsg.shown pr :: ChanMsg.heard t :: ChanMsg.noSelection ::
             (get_input pr true mc ⟨Mode.voice, ty, rest⟩).2))
    ∧ (∀ (pr : String) (m : Nat) (ty rest : List String) (t : String)
          (c : Nat), t ≠ "" → parse_choice t = some c → ¬(1 ≤ c ∧ c ≤ m) →
        get_input pr true (some m) ⟨Mode.voice, ty, t :: rest⟩ =
          ((get_input pr true (some m) ⟨Mode.voice, ty, rest⟩).1,
           ChanMsg.shown pr :: ChanMsg.heard t :: ChanMsg.outOfRange ::
             (get_input pr true (some m) ⟨Mode.voice, ty, rest⟩).2))
    ∧ (∀ (pr : String) (m : Nat) (ty rest : List String) (t : String)
          (c : Nat), t ≠ "" → parse_choice t = some c → 1 ≤ c ∧ c ≤ m →
        get_input pr true (some m) ⟨Mode.voice, ty, t :: rest⟩ =
          (some (toString c, ⟨Mode.voice, ty, rest⟩),
           [ChanMsg.shown pr, ChanMsg.heard t]))
    ∧ (∀ (pr : String) (ty rest : List String) (t : String) (c : Nat),
        t ≠ "" → parse_choice t = some c →
        get_input pr true none ⟨Mode.voice, ty, t :: rest⟩ =
          (some (toString c, ⟨Mode.voice, ty, rest⟩),
           [ChanMsg.shown pr, ChanMsg.heard t]))
    ∧ ChanMsg.noSelection ≠ ChanMsg.outOfRange := by
  refine ⟨?_, ?_, ?_, ?_, ?_, by decide⟩
  · intro pr mc ty v u hu
    exact getInputGo_text_plain (ty.length + 1 + v.length) pr true mc ty v u hu
  · intro pr mc ty rest t ht hp
    exact getInputGo_choice_noparse (ty.length + rest.length + 1) pr mc ty
      rest t (beq_eq_false_iff_ne.mpr ht) hp
  · intro pr m ty rest t c ht hp hr
    exact getInputGo_choice_outOfRange (ty.length + rest.length + 1) pr m ty
      rest t c (beq_eq_false_iff_ne.mpr ht) hp hr
  · intro pr m ty rest t c ht hp hr
    exact getInputGo_choice_inRange (ty.length + rest.length + 1) pr m ty
      rest t c (beq_eq_false_iff_ne.mpr ht) hp hr
  · intro pr ty rest t c ht hp
    exact getInputGo_choice_noMax (ty.length + rest.length + 1) pr ty
      rest t c (beq_eq_false_iff_ne.mpr ht) hp

/-- Witness for C7: the amended contract exercised on a concrete voice
session — "blah" is rejected with the no-selection message and retried,
"seven" (out of range for maxChoice 3) with the out-of-range message,
and "two" is accepted and rendered back as "2". -/
theorem expect_choice_contract_witness :
    get_input "Pick" true (some 3) ⟨Mode.voice, [], ["blah", "two"]⟩ =
      ((get_input "Pick" true (some 3) ⟨Mode.voice, [], ["two"]⟩).1,
       ChanMsg.shown "Pick" :: ChanMsg.heard "blah" :: ChanMsg.noSelection ::
         (get_input "Pick" true (some 3) ⟨Mode.voice, [], ["two"]⟩).2) ∧
    get_input "Pick" true (some 3) ⟨Mode.voice, [], ["seven"]⟩ =
      ((get_input "Pick" true (some 3) ⟨Mode.voice, [], []⟩).1,
       ChanMsg.shown "Pick" :: ChanMsg.heard "seven" :: ChanMsg.outOfRange ::
         (get_input "Pick" true (some 3) ⟨Mode.voice, [], []⟩).2) ∧
    get_input "Pick" true (some 3) ⟨Mode.voice, [], ["two"]⟩ =
      (some ("2", ⟨Mode.voice, [], []⟩),
       [ChanMsg.shown "Pick", ChanMsg.heard "two"]) :=
  ⟨expect_choice_contract.2.1 "Pick" (some 3) [] ["two"] "blah"
      (by decide) (by decide),
   expect_choice_contract.2.2.1 "Pick" 3 [] [] "seven" 7
      (by decide) (by decide) (by decide),
   expect_choice_contract.2.2.2.1 "Pick" 3 [] [] "two" 2
      (by decide) (by decide) (by decide)⟩

/-! ## Trace characterization of a completed run -/

theorem require_yes_done_shown (p : Proc) (pr : String) (st s' : SMState)
    (h : require_yes p pr st = ExecRes.done s') :
    s'.cur_sub = st.cur_sub ∧ s'.cur_step = st.cur_step ∧
    shownSteps s'.trace = shownSteps st.trace := by
  obtain ⟨h1, h2, -, pre, a, post, -, -, -, -, htr⟩ :=
    requireYesGo_done_spec p pr st.inputs st s' h
  refine ⟨h1, h2, ?_⟩
  rw [htr, shownSteps_append, shownSteps_append, shownSteps_rejectEvents]
  simp [shownSteps]

theorem run_single_step_done_shown (p : Proc) (n : Nat) (st s' : SMState)
    (h : run_single_step p n st = ExecRes.done s') :
    s'.cur_sub = st.cur_sub ∧ s'.cur_step = st.cur_step ∧
    shownSteps s'.trace = shownSteps st.trace ++ [(st.cur_sub, st.cur_step)] := by
  obtain ⟨h1, h2, h3⟩ := require_yes_done_shown p
    ("Finished step " ++ toString n)
    { st with trace := st.trace ++ [Event.stepShown st.cur_sub st.cur_step] }
    s' h
  refine ⟨h1, h2, ?_⟩
  rw [h3]
  simp [shownSteps_append, shownSteps]

theorem runStepsGo_done_shown (p : Proc) :
    ∀ (l : List Step) (idx : Nat) (st s' : SMState),
      runStepsGo p l idx st = ExecRes.done s' →
      s'.cur_sub = st.cur_sub ∧
      shownSteps s'.trace = shownSteps st.trace ++
        (rangeFrom idx l.length).map (fun j => (st.cur_sub, j)) := by
  intro l
  induction l with
  | nil =>
    intro idx st s' h
    cases h
    exact ⟨rfl, by simp [rangeFrom]⟩
  | cons a rest ih =>
    intro idx st s' h
    simp only [runStepsGo] at h
    obtain ⟨s1, hs1, h2⟩ := andThen_eq_done h
    obtain ⟨e1, e2, e3⟩ :=
      run_single_step_done_shown p (idx + 1) { st with cur_step := idx } s1 hs1
    obtain ⟨f1, f2⟩ := ih (idx + 1) s1 s' h2
    simp only at e1 e2 e3
    constructor
    · rw [f1, e1]
    · rw [f2, e3, e1]
      simp [rangeFrom, List.append_assoc]

theorem run_single_subprocedure_done_shown (p : Proc) (sec : Subprocedure)
    (i : Nat) (st s' : SMState)
    (h : run_single_subprocedure p sec i st = ExecRes.done s') :
    s'.cur_sub = st.cur_sub ∧ s'.cur_step = 0 ∧
    shownSteps s'.trace = shownSteps st.trace ++
      (rangeFrom (startFromIdx (if i == st.cur_sub then st.cur_step else 0))
        (sec.steps.length -
          startFromIdx (if i == st.cur_sub then st.cur_step else 0))).map
        (fun j => (st.cur_sub, j)) := by
  unfold run_single_subprocedure at h
  obtain ⟨s1, hs1, h2⟩ := andThen_eq_done h
  obtain ⟨e1, e2⟩ := runStepsGo_done_shown p _ _
    { st with trace := st.trace ++ [Event.subHeader i] } s1 hs1
  obtain ⟨f1, f2, f3⟩ := require_yes_done_shown p _
    { s1 with cur_step := 0 } s' h2
  simp only at e1 e2 f1 f3
  refine ⟨by rw [f1, e1], f2, ?_⟩
  rw [f3, e2]
  simp [shownSteps_append, shownSteps, List.length_drop]

theorem runSubsGo_done_shown (p : Proc) :
    ∀ (l : List Subprocedure) (idx : Nat) (st s' : SMState),
      runSubsGo p l idx st = ExecRes.done s' →
      shownSteps s'.trace = shownSteps st.trace ++ planFrom l idx st.cur_step := by
  intro l
  induction l with
  | nil =>
    intro idx st s' h
    cases h
    simp [planFrom]
  | cons sec rest ih =>
    intro idx st s' h
    simp only [runSubsGo] at h
    obtain ⟨s1, hs1, h2⟩ := andThen_eq_done h
    obtain ⟨e1, e2, e3⟩ := run_single_subprocedure_done_shown p sec idx
      { st with cur_sub := idx } s1 hs1
    have f := ih (idx + 1) s1 s' h2
    simp only [beq_self_eq_true, if_pos] at e1 e2 e3
    rw [f, e2, e3]
    simp [planFrom, List.append_assoc]

theorem run_prerequisites_done_shown (p : Proc) (st s' : SMState)
    (h : run_prerequisites p st = ExecRes.done s') :
    s'.cur_sub = st.cur_sub ∧ s'.cur_step = st.cur_step ∧
    shownSteps s'.trace = shownSteps st.trace := by
  unfold run_prerequisites at h
  by_cases hp : p.prerequisites.isEmpty
  · rw [if_pos hp] at h
    cases h
    exact ⟨rfl, rfl, rfl⟩
  · rw [if_neg hp] at h
    obtain ⟨h1, h2, h3⟩ := require_yes_done_shown p _
      { st with trace := st.trace ++ [Event.prereqsShown] } s' h
    simp only at h1 h2 h3
    refine ⟨h1, h2, ?_⟩
    rw [h3]
    simp [shownSteps_append, shownSteps]

theorem run_done_shown (p : Proc) (st final : SMState)
    (h : run p st = ExecRes.done final) :
    shownSteps final.trace = shownSteps st.trace ++
      planFrom (p.sections.drop st.cur_sub) st.cur_sub st.cur_step := by
  unfold run at h
  obtain ⟨s1, h1, h⟩ := andThen_eq_done h
  obtain ⟨s2, h2, h⟩ := andThen_eq_done h
  obtain ⟨a1, a2, a3⟩ := run_prerequisites_done_shown p
    { st with trace := st.trace ++ [Event.header] } s1 h1
  have b := runSubsGo_done_shown p (p.sections.drop s1.cur_sub) s1.cur_sub
    s1 s2 h2
  have hshown : shownSteps final.trace = shownSteps s2.trace := by
    dsimp only at h
    split at h <;> cases h <;> simp [shownSteps_append, shownSteps]
  simp only at a1 a2 a3
  rw [hshown, b, a3, a1, a2]
  simp [shownSteps_append, shownSteps]

/-! ## Locating one subprocedure's steps inside the visit plan -/

theorem secAt_drop :
    ∀ (l : List Subprocedure) (n m : Nat),
      secAt (l.drop n) m = secAt l (n + m) := by
  intro l
  induction l with
  | nil => intro n m; cases n <;> rfl
  | cons sec rest ih =>
    intro n m
    cases n with
    | zero => simp
    | succ n' =>
      simp only [List.drop_succ_cons]
      rw [ih n' m]
      have hm : n' + 1 + m = (n' + m) + 1 := by omega
      rw [hm]
      rfl

theorem planFrom_filter :
    ∀ (l : List Subprocedure) (idx k t : Nat),
      (planFrom l idx k).filter (fun q => q.1 == t) =
        if t < idx then []
        else pieceFor (secAt l (t - idx)) (if t = idx then k else 0) t := by
  intro l
  induction l with
  | nil =>
    intro idx k t
    simp only [planFrom, List.filter_nil, secAt, pieceFor]
    split <;> rfl
  | cons sec rest ih =>
    intro idx k t
    simp only [planFrom, List.filter_append]
    by_cases hti : t = idx
    · subst hti
      rw [ih (t + 1) 0 t, if_pos (Nat.lt_succ_self t),
        if_neg (Nat.lt_irrefl t), List.append_nil, Nat.sub_self]
      simp only [secAt, pieceFor]
      rw [List.filter_map]
      have hcomp : ((fun q => q.1 == t) ∘ fun j => ((t, j) : Nat × Nat)) =
          fun _ => true := by
        funext j
        simp
      rw [hcomp, List.filter_true]
      simp
    · -- the piece at `idx` contributes nothing when t ≠ idx
      have hpiece0 :
          (List.map (fun j => (idx, j) : Nat → Nat × Nat)
              (rangeFrom (startFromIdx k)
                (sec.steps.length - startFromIdx k))).filter
              (fun q => q.1 == t) = [] := by
        rw [List.filter_map]
        have hf : List.filter
            ((fun q => (q.1 == t)) ∘ (fun j => ((idx, j) : Nat × Nat)))
            (rangeFrom (startFromIdx k)
              (sec.steps.length - startFromIdx k)) = [] := by
          apply List.filter_eq_nil_iff.mpr
          intro j hj
          simp only [Function.comp, beq_eq_false_iff_ne, ne_eq,
            Bool.not_eq_true, beq_eq_false_iff_ne]
          exact fun hh => hti hh.symm
        rw [hf, List.map_nil]
      rw [hpiece0, List.nil_append, ih (idx + 1) 0 t]
      by_cases hlt : t < idx
      · rw [if_pos (by omega : t < idx + 1), if_pos hlt]
      · have h1 : ¬ t < idx + 1 := by omega
        rw [if_neg h1, if_neg hlt]
        have h2 : t - idx = (t - (idx + 1)) + 1 := by omega
        rw [h2]
        simp only [secAt]
        have h3 : (if t = idx + 1 then (0 : Nat) else 0) =
            (if t = idx then k else 0) := by
          simp [hti]
        rw [h3]

/-! ## C1 — the resume offset law -/

/-- C1: for every completed run of the executor started with resume
position `(s, k)`: if `k > 0` the steps rendered in subprocedure `s` are
exactly the 0-based steps `k+1, k+2, …` (steps 0 through k are skipped),
if `k = 0` they are exactly `0, 1, …` (the subprocedure restarts), and
every subprocedure after `s` is rendered from step 0 in full. -/
theorem resume_offset_law :
    ∀ (p : Proc) (s k : Nat) (inputs : List String) (store : Store)
      (final : SMState),
      run p (initState s k inputs store) = ExecRes.done final →
      ((0 < k → (shownSteps final.trace).filter (fun q => q.1 == s) =
          (rangeFrom (k + 1) (stepsLen p s - (k + 1))).map (fun j => (s, j)))
       ∧ (k = 0 → (shownSteps final.trace).filter (fun q => q.1 == s) =
          (rangeFrom 0 (stepsLen p s)).map (fun j => (s, j)))
       ∧ (∀ t, s < t → (shownSteps final.trace).filter (fun q => q.1 == t) =
          (rangeFrom 0 (stepsLen p t)).map (fun j => (t, j)))) := by
  intro p s k inputs store final h
  have hshown := run_done_shown p (initState s k inputs store) final h
  have base : shownSteps final.trace = planFrom (p.sections.drop s) s k := by
    rw [hshown]
    simp [initState, shownSteps]
  refine ⟨?_, ?_, ?_⟩
  · intro hk
    rw [base, planFrom_filter (p.sections.drop s) s k s,
      if_neg (Nat.lt_irrefl s), Nat.sub_self, secAt_drop p.sections s 0,
      Nat.add_zero, if_pos rfl]
    unfold pieceFor stepsLen
    cases hsec : secAt p.sections s with
    | none => simp [startFromIdx, hk, rangeFrom]
    | some sec =>
      have hs : startFromIdx k = k + 1 := by simp [startFromIdx, hk]
      rw [hs]
  · intro hk
    subst hk
    rw [base, planFrom_filter (p.sections.drop s) s 0 s,
      if_neg (Nat.lt_irrefl s), Nat.sub_self, secAt_drop p.sections s 0,
      Nat.add_zero, if_pos rfl]
    unfold pieceFor stepsLen
    cases hsec : secAt p.sections s with
    | none => simp [startFromIdx, rangeFrom]
    | some sec => simp [startFromIdx]
  · intro t hst
    rw [base, planFrom_filter (p.sections.drop s) s k t,
      if_neg (by omega : ¬ t < s), secAt_drop p.sections s (t - s)]
    have hts : s + (t - s) = t := by omega
    rw [hts, if_neg (by omega : ¬ t = s)]
    unfold pieceFor stepsLen
    cases hsec : secAt p.sections t with
    | none => simp [startFromIdx, rangeFrom]
    | some sec => simp [startFromIdx]

/-- Witness for C1: resuming the sample procedure (3-step and 2-step
subprocedures) at position (0, 1) renders exactly step 2 of
subprocedure 0 and steps 0, 1 of subprocedure 1. -/
theorem resume_offset_law_witness :
    (shownSteps (stateOf (run sampleProc
        (initState 0 1 (List.replicate 6 "yes") []))).trace).filter
        (fun q => q.1 == 0) =
      (rangeFrom 2 (stepsLen sampleProc 0 - 2)).map
        (fun j => ((0 : Nat), j)) ∧
    (shownSteps (stateOf (run sampleProc
        (initState 0 1 (List.replicate 6 "yes") []))).trace).filter
        (fun q => q.1 == 1) =
      (rangeFrom 0 (stepsLen sampleProc 1)).map (fun j => ((1 : Nat), j)) := by
  constructor
  · have h := (resume_offset_law sampleProc 0 1 (List.replicate 6 "yes") []
      (stateOf (run sampleProc (initState 0 1 (List.replicate 6 "yes") [])))
      rfl).1 (by decide)
    simpa using h
  · have h := (resume_offset_law sampleProc 0 1 (List.replicate 6 "yes") []
      (stateOf (run sampleProc (initState 0 1 (List.replicate 6 "yes") [])))
      rfl).2.2 1 (by decide)
    simpa using h

end TeslaAsma
